import Mathlib

/-!
Shallow embedding of the HTTP interceptor chain construction and dispatch
engine of this repository:

* the stream (Observable) variant: `HttpInterceptorHandler` together with
  `chainedInterceptorFn` and `interceptorChainEndFn`
  (packages/common/http/rxjs-interop/src/interceptor.ts);
* the single-shot promise variant: `HttpInterceptorHandler.handle`
  (packages/common/http/src/interceptor.ts);
* the promise returned by `Http.request` (packages/common/http/src/http.ts).

Observables are modelled as the list of events a subscription delivers,
together with an explicit effect log; the promise variant is modelled in
explicit state-passing style with an `Except` channel for thrown errors.
-/

namespace InterceptorSpec

/-! ### Deduplication: `Array.from(new Set([...]))` -/

/-- First-seen deduplication with an accumulator of already seen elements.
Models the JavaScript idiom `Array.from(new Set(list))`: a JS `Set` keeps the
first occurrence of each element and iterates in insertion order. -/
def jsSetDedupAux {α : Type} [DecidableEq α] (seen : List α) : List α → List α
  | [] => []
  | x :: xs => if x ∈ seen then jsSetDedupAux seen xs else x :: jsSetDedupAux (seen ++ [x]) xs

/-- Model of `Array.from(new Set(l))`. -/
def jsSetDedup {α : Type} [DecidableEq α] (l : List α) : List α :=
  jsSetDedupAux [] l

/-- The merged entry list both `HttpInterceptorHandler.handle` variants build:
`Array.from(new Set([...injector.get(HTTP_INTERCEPTOR_FNS), ...injector.get(HTTP_ROOT_INTERCEPTOR_FNS, [])]))`.
Equality of entries models JavaScript object identity of the registered
interceptor functions. -/
def dedupedInterceptorFns {α : Type} [DecidableEq α] (fns rootFns : List α) : List α :=
  jsSetDedup (fns ++ rootFns)

theorem jsSetDedupAux_mem {α : Type} [DecidableEq α] (seen l : List α) (a : α) :
    a ∈ jsSetDedupAux seen l ↔ a ∈ l ∧ a ∉ seen := by
  induction l generalizing seen with
  | nil => simp [jsSetDedupAux]
  | cons x xs ih =>
    by_cases hx : x ∈ seen
    · rw [jsSetDedupAux, if_pos hx, ih]
      constructor
      · rintro ⟨h1, h2⟩
        exact ⟨List.mem_cons_of_mem _ h1, h2⟩
      · rintro ⟨h1, h2⟩
        rcases List.mem_cons.mp h1 with h1 | h1
        · exact absurd (h1 ▸ hx) h2
        · exact ⟨h1, h2⟩
    · rw [jsSetDedupAux, if_neg hx]
      constructor
      · intro h
        rcases List.mem_cons.mp h with h | h
        · exact ⟨h ▸ List.mem_cons_self x xs, h ▸ hx⟩
        · rw [ih] at h
          refine ⟨List.mem_cons_of_mem _ h.1, fun hc => h.2 ?_⟩
          exact List.mem_append_left _ hc
      · rintro ⟨h1, h2⟩
        by_cases hax : a = x
        · exact hax ▸ List.mem_cons_self _ _
        · have h1' : a ∈ xs := by
            rcases List.mem_cons.mp h1 with h | h
            · exact absurd h hax
            · exact h
          refine List.mem_cons_of_mem _ ((ih _).mpr ⟨h1', fun hc => ?_⟩)
          rcases List.mem_append.mp hc with hc | hc
          · exact h2 hc
          · simp only [List.mem_singleton] at hc
            exact hax hc

theorem jsSetDedupAux_count {α : Type} [DecidableEq α] (seen l : List α) (a : α) :
    (jsSetDedupAux seen l).count a = if a ∈ l ∧ a ∉ seen then 1 else 0 := by
  induction l generalizing seen with
  | nil => simp [jsSetDedupAux]
  | cons x xs ih =>
    by_cases hx : x ∈ seen
    · rw [jsSetDedupAux, if_pos hx, ih]
      by_cases hax : a = x
      · subst hax
        simp [hx]
      · simp [List.mem_cons, hax]
    · rw [jsSetDedupAux, if_neg hx]
      by_cases hax : a = x
      · subst hax
        rw [List.count_cons_self, ih]
        have : ¬(a ∈ xs ∧ a ∉ seen ++ [a]) := by
          rintro ⟨_, h2⟩
          exact h2 (List.mem_append_right _ (List.mem_singleton_self a))
        simp [this, hx]
      · rw [List.count_cons_of_ne hax, ih]
        have hmem : a ∈ seen ++ [x] ↔ a ∈ seen := by
          simp [List.mem_append, hax]
        simp [List.mem_cons, hax, hmem]

theorem jsSetDedupAux_sublist {α : Type} [DecidableEq α] (seen l : List α) :
    (jsSetDedupAux seen l).Sublist l := by
  induction l generalizing seen with
  | nil => simp [jsSetDedupAux]
  | cons x xs ih =>
    by_cases hx : x ∈ seen
    · rw [jsSetDedupAux, if_pos hx]
      exact (ih seen).trans (List.sublist_cons_self x xs)
    · rw [jsSetDedupAux, if_neg hx]
      exact (ih (seen ++ [x])).cons₂ x

theorem jsSetDedupAux_indexOf {α : Type} [DecidableEq α] (l : List α) (a b : α) :
    ∀ seen : List α, a ∈ l → b ∈ l → a ∉ seen → b ∉ seen →
      ((jsSetDedupAux seen l).indexOf a ≤ (jsSetDedupAux seen l).indexOf b ↔
        l.indexOf a ≤ l.indexOf b) := by
  induction l with
  | nil => intro seen ha; cases ha
  | cons y t ih =>
    intro seen ha hb ha' hb'
    by_cases hya : y = a
    · subst hya
      rw [jsSetDedupAux, if_neg ha']
      simp [List.indexOf_cons_self]
    · by_cases hyb : y = b
      · subst hyb
        rw [jsSetDedupAux, if_neg hb']
        have hat : a ∈ t := by
          rcases List.mem_cons.mp ha with h | h
          · exact absurd h.symm hya
          · exact h
        have haux : a ∈ jsSetDedupAux (seen ++ [y]) t := by
          rw [jsSetDedupAux_mem]
          refine ⟨hat, fun hc => ?_⟩
          rcases List.mem_append.mp hc with hc | hc
          · exact ha' hc
          · simp only [List.mem_singleton] at hc
            exact hya hc.symm
        have h1 : (y :: jsSetDedupAux (seen ++ [y]) t).indexOf a =
            (jsSetDedupAux (seen ++ [y]) t).indexOf a + 1 :=
          List.indexOf_cons_ne _ hya
        have h2 : (y :: t).indexOf a = t.indexOf a + 1 := List.indexOf_cons_ne _ hya
        rw [h1, h2, List.indexOf_cons_self, List.indexOf_cons_self]
        omega
      · have hat : a ∈ t := by
          rcases List.mem_cons.mp ha with h | h
          · exact absurd h.symm hya
          · exact h
        have hbt : b ∈ t := by
          rcases List.mem_cons.mp hb with h | h
          · exact absurd h.symm hyb
          · exact h
        by_cases hy : y ∈ seen
        · rw [jsSetDedupAux, if_pos hy,
            List.indexOf_cons_ne _ hya, List.indexOf_cons_ne _ hyb]
          rw [ih seen hat hbt ha' hb']
          omega
        · rw [jsSetDedupAux, if_neg hy,
            List.indexOf_cons_ne _ hya, List.indexOf_cons_ne _ hyb,
            List.indexOf_cons_ne _ hya, List.indexOf_cons_ne _ hyb]
          have ha'' : a ∉ seen ++ [y] := by
            intro hc
            rcases List.mem_append.mp hc with hc | hc
            · exact ha' hc
            · simp only [List.mem_singleton] at hc
              exact hya hc.symm
          have hb'' : b ∉ seen ++ [y] := by
            intro hc
            rcases List.mem_append.mp hc with hc | hc
            · exact hb' hc
            · simp only [List.mem_singleton] at hc
              exact hyb hc.symm
          rw [Nat.succ_le_succ_iff, Nat.succ_le_succ_iff]
          exact ih (seen ++ [y]) hat hbt ha'' hb''

theorem jsSetDedup_count {α : Type} [DecidableEq α] (l : List α) (a : α) :
    (jsSetDedup l).count a = if a ∈ l then 1 else 0 := by
  rw [jsSetDedup, jsSetDedupAux_count]
  simp

theorem jsSetDedup_sublist {α : Type} [DecidableEq α] (l : List α) :
    (jsSetDedup l).Sublist l :=
  jsSetDedupAux_sublist [] l

theorem jsSetDedup_indexOf {α : Type} [DecidableEq α] (l : List α) (a b : α)
    (ha : a ∈ l) (hb : b ∈ l) :
    ((jsSetDedup l).indexOf a ≤ (jsSetDedup l).indexOf b ↔
      l.indexOf a ≤ l.indexOf b) :=
  jsSetDedupAux_indexOf l a b [] ha hb (List.not_mem_nil a) (List.not_mem_nil b)

/-! ### Stream variant: the Observable interceptor chain

The cold Observable returned for one request is modelled by the list of events
it delivers to a subscriber, paired with a log of effects (which interceptor
wrappers ran, and which requests reached the backend).  Requests are modelled
as the list of tags attached to them so far. -/

/-- Model of `HttpEvent`: `Sent`, user events, and the terminal `HttpResponse`.
A response records the tags interceptors attached on the way back (`trace`)
and the request the backend answered (`body`). -/
inductive Ev where
  | sent : Ev
  | user (n : Nat) : Ev
  | response (trace : List Nat) (body : List Nat) : Ev
deriving DecidableEq, Repr

/-- The `event instanceof HttpResponse` test of `chainedInterceptorFn`. -/
def isResponse : Ev → Bool
  | .response _ _ => true
  | _ => false

/-- Attach a tag to a response event on its way back to the caller. -/
def addTag (i : Nat) : Ev → Ev
  | .response tr b => .response (tr ++ [i]) b
  | e => e

/-- Subscriber semantics of the Observable wrapped around an event interceptor:
`subscriber.next(event)` for each emitted event, and `subscriber.complete()`
upon the first `HttpResponse`, after which later emissions are dropped. -/
def takeUntilResponse : List Ev → List Ev
  | [] => []
  | e :: es => if isResponse e then [e] else e :: takeUntilResponse es

/-- Behaviours of next-based (`ObservableInterceptorFn`) interceptors used to
exercise the chain: pass the request through, tag it (and tag responses on the
way back), invoke the continuation twice (retry), or short-circuit with a
fixed event list and never invoke the continuation. -/
inductive NextB where
  | pass : NextB
  | tag (i : Nat) : NextB
  | retry : NextB
  | short (evs : List Ev) : NextB
deriving DecidableEq, Repr

/-- Behaviours of callback-based (`eventInterceptor`) interceptors: emit `Sent`
and then forward every event of the continuation, or emit a fixed list of
events without invoking the continuation. -/
inductive EvB where
  | sentFwd : EvB
  | emitList (evs : List Ev) : EvB
deriving DecidableEq, Repr

/-- The two calling conventions of `HttpInterceptorFn`: a plain function, or an
object carrying an `eventInterceptor` member (the `'eventInterceptor' in
interceptor` test). -/
inductive RxEntryB where
  | nextB (f : NextB) : RxEntryB
  | eventB (g : EvB) : RxEntryB
deriving DecidableEq, Repr

/-- A registered interceptor entry.  `id` models JavaScript object identity of
the registered function (two distinct registrations of the same object share
one `id`), `b` its behaviour. -/
structure REntry where
  id : Nat
  b : RxEntryB
deriving DecidableEq, Repr

/-- Effect log entries of one subscription: an interceptor wrapper ran with a
request, or the backend was invoked with a request. -/
inductive RxTr where
  | run (e : REntry) (req : List Nat) : RxTr
  | backend (req : List Nat) : RxTr
deriving DecidableEq, Repr

/-- Effect log of one subscription. -/
abbrev Log := List RxTr

/-- Model of `HttpHandlerFn`: request to Observable. -/
abbrev RxHandlerFn := List Nat → Log → List Ev × Log

/-- Model of `ChainedInterceptorFn`: `(req, finalHandlerFn) => Observable`. -/
abbrev RxChainFn := List Nat → RxHandlerFn → Log → List Ev × Log

/-- Interpretation of a next-based interceptor behaviour. -/
def runNextB : NextB → List Nat → RxHandlerFn → Log → List Ev × Log
  | .pass, req, next, g => next req g
  | .tag i, req, next, g =>
    let r := next (req ++ [i]) g
    (r.1.map (addTag i), r.2)
  | .retry, req, next, g =>
    let r1 := next req g
    let r2 := next req r1.2
    (r1.1 ++ r2.1, r2.2)
  | .short evs, _, _, g => (evs, g)

/-- Interpretation of a callback-based interceptor behaviour: the list of
events it passes to its `onEvent` callback, in order. -/
def emitsOf : EvB → List Nat → RxHandlerFn → Log → List Ev × Log
  | .sentFwd, req, next, g =>
    let r := next req g
    (.sent :: r.1, r.2)
  | .emitList evs, _, _, g => (evs, g)

/-- Model of `interceptorChainEndFn`: the terminal stage just invokes the final
handler on the current request. -/
def interceptorChainEndFn : RxChainFn :=
  fun req finalHandlerFn g => finalHandlerFn req g

/-- Model of `chainedInterceptorFn`: wraps one interceptor entry around the
tail of the chain.  The continuation handed to the interceptor invokes the
chain tail with the same `finalHandlerFn`.  For a callback-based entry the
produced Observable delivers the emitted events until (and including) the
first response, per the subscriber wrapper in the source. -/
def chainedInterceptorFn (chainTailFn : RxChainFn) (entry : REntry) : RxChainFn :=
  fun initialRequest finalHandlerFn g =>
    let g0 := g ++ [RxTr.run entry initialRequest]
    match entry.b with
    | .nextB f => runNextB f initialRequest (fun r => chainTailFn r finalHandlerFn) g0
    | .eventB gb =>
      let r := emitsOf gb initialRequest (fun r => chainTailFn r finalHandlerFn) g0
      (takeUntilResponse r.1, r.2)

/-- Model of the `reduceRight` fold of `HttpInterceptorHandler.handle`:
interceptors are wrapped right-to-left so that runtime execution order is
left-to-right, with `interceptorChainEndFn` innermost. -/
def buildChain (entries : List REntry) : RxChainFn :=
  entries.foldr (fun e acc => chainedInterceptorFn acc e) interceptorChainEndFn

/-- A transport backend test double: logs the request it receives and answers
with a single response event echoing that request. -/
def rxBackend : RxHandlerFn :=
  fun req g => ([Ev.response [] req], g ++ [RxTr.backend req])

/-- The chain cache cell of the stream-variant `HttpInterceptorHandler`
(`private chain: ChainedInterceptorFn | null = null`). -/
structure RxDispatcher where
  chain : Option RxChainFn

/-- Model of the stream-variant `HttpInterceptorHandler.handle`: on the first
call the deduplicated entry list is read and folded into a chain, which is
stored in the dispatcher; later calls reuse the stored chain.  The registry
lists are passed per call because the source reads them from the injector at
call time.  The pending-task wrapper does not change the delivered events and
is modelled separately by `runStream` below. -/
def RxDispatcher.handle (d : RxDispatcher) (fns rootFns : List REntry)
    (backend : RxHandlerFn) (req : List Nat) :
    RxDispatcher × (Log → List Ev × Log) :=
  let chain := d.chain.getD (buildChain (dedupedInterceptorFns fns rootFns))
  ({chain := some chain}, fun g => chain req backend g)

/-! ### Stream variant: pending-task lifecycle

The event-list model above elides the `PendingTasks` wrapper because
`finalize` does not change the delivered events.  The wrapper is modelled here:
a handle call produces a stream description, and running that description with
any terminal outcome shows which registry operations fire. -/

/-- Operations performed on the pending-task registry. -/
inductive TaskOp where
  | added (id : Nat) : TaskOp
  | removed (id : Nat) : TaskOp
deriving DecidableEq, Repr

/-- The pending-task registry: a fresh-id counter plus the log of operations
performed on it. -/
structure PTState where
  nextId : Nat
  ops : List TaskOp
deriving DecidableEq, Repr

/-- Model of `pendingTasks.add()`: returns a fresh task id. -/
def PTState.addTask (s : PTState) : Nat × PTState :=
  (s.nextId, {nextId := s.nextId + 1, ops := s.ops ++ [TaskOp.added s.nextId]})

/-- Model of `pendingTasks.remove(taskId)`. -/
def PTState.removeTask (id : Nat) (s : PTState) : PTState :=
  {s with ops := s.ops ++ [TaskOp.removed id]}

/-- The three ways a subscription can terminate. -/
inductive Outcome where
  | completed : Outcome
  | errored : Outcome
  | unsubscribed : Outcome
deriving DecidableEq, Repr

/-- Description of the Observable a handle call returns: the chain run itself,
optionally piped through `finalize(() => pendingTasks.remove(taskId))`. -/
inductive RxStream where
  | chainRun : RxStream
  | finalizeRemove (taskId : Nat) (inner : RxStream) : RxStream
deriving DecidableEq, Repr

/-- Semantics of running a described stream to its terminal outcome.  The
`finalize` operator of the environment fires its callback exactly once when
the subscription terminates, whether it completed, errored, or was
unsubscribed. -/
def runStream : RxStream → Outcome → PTState → PTState
  | .chainRun, _, s => s
  | .finalizeRemove t inner, oc, s => PTState.removeTask t (runStream inner oc s)

/-- Model of the pending-task wiring of the stream-variant handle: when the
stability flag is set, one task is added before dispatch and the returned
stream is piped through a single `finalize` that removes exactly that task;
otherwise the chain stream is returned untouched. -/
def rxHandleLifecycle (contributeToStability : Bool) (pt : PTState) :
    RxStream × PTState :=
  if contributeToStability then
    let r := pt.addTask
    (RxStream.finalizeRemove r.1 RxStream.chainRun, r.2)
  else
    (RxStream.chainRun, pt)

/-! ### Single-shot promise variant

`HttpInterceptorHandler.handle` of the promise-based client: an async `next`
closure over a mutable `index` cursor starting at `-1`.  Interceptors receive
`next` typed as the one-argument `HttpHandlerFn`, so every delegated call
passes `undefined` for `onEvent`.  The model is in explicit state-passing
style; the `Except` channel carries thrown `TypeError`s (calling an undefined
callback) and async rejections awaited by a caller. -/

/-- JavaScript values flowing through the promise variant: `undefined`, or a
response event echoing the request the backend saw. -/
inductive JsVal where
  | undef : JsVal
  | resp (req : List Nat) : JsVal
deriving DecidableEq, Repr

/-- Behaviours of interceptor entries used to exercise the promise variant.
The `ev`-prefixed ones are callback-based (`eventInterceptor` member); they
invoke the one-argument continuation without awaiting it, so rejections of
the continuation are not propagated to them, and they never touch their
`onEvent` argument (which is `undefined` at every delegated position).
`nbPass` is next-based: `(req, next) => next(req)`. -/
inductive SSEntryB where
  | evPass : SSEntryB
  | evTag (t : Nat) : SSEntryB
  | evTwice : SSEntryB
  | evShort : SSEntryB
  | nbPass : SSEntryB
deriving DecidableEq, Repr

/-- A registered entry of the promise variant; `id` models object identity. -/
structure SEntry where
  id : Nat
  b : SSEntryB
deriving DecidableEq, Repr

/-- Trace of one promise-variant handle call: entry dispatches (with the value
of the cursor, the dispatched entry, the request, and whether an `onEvent`
callback was provided) and backend invocations. -/
inductive STr where
  | dispatch (idx : Int) (e : SEntry) (req : List Nat) (onEv : Bool) : STr
  | backendCall (req : List Nat) (onEv : Bool) : STr
deriving DecidableEq, Repr

/-- State of one promise-variant handle call: the shared `index` cursor, the
dispatch trace, the events delivered to the original caller callback, and the
operations performed on the pending-task registry (the promise-variant handle
contains no pending-task code, so nothing ever appends to `taskOps`). -/
structure SSState where
  index : Int
  trace : List STr
  delivered : List JsVal
  taskOps : List TaskOp
deriving DecidableEq, Repr

/-- Invoking the `onEvent` callback: the original caller callback delivers the
value; invoking `undefined` throws a `TypeError`. -/
def callCb (cb : Bool) (v : JsVal) (s : SSState) : Except String Unit × SSState :=
  if cb then (Except.ok (), {s with delivered := s.delivered ++ [v]})
  else (Except.error "TypeError: onEvent is not a function", s)

/-- Model of `PromiseFetchBackend.handle` (packages/common/http/src/backend.ts,
staged as the second document of rxjs-interop/public_api.ts):

```
async handle(request, onEvent, signal?): Promise<void> {
  const response = await this.doRequest(request, signal);
  onEvent(response);
}
```

The network exchange `doRequest` is abstracted as succeeding with a response
that echoes the request.  `onEvent(response)` is invoked unconditionally, so
when the provided callback is `undefined` the call throws a `TypeError` and
the completion promise of the backend rejects; otherwise the promise resolves
with no value. -/
def ssBackendCall (req : List Nat) (cb : Bool) (s : SSState) :
    Except String JsVal × SSState :=
  let s1 := {s with trace := s.trace ++ [STr.backendCall req cb]}
  match callCb cb (JsVal.resp req) s1 with
  | (Except.error e, s2) => (Except.error e, s2)
  | (Except.ok _, s2) => (Except.ok JsVal.undef, s2)

/-- One dispatched entry, given the delegated continuation `next` (which the
interceptor invokes with the request only, hence `onEvent = false` on every
delegated call).  Callback-based entries do not await the continuation, so its
result and any rejection are dropped while its state effects remain; the
next-based branch awaits the interceptor, then calls `onEvent(response)`. -/
def dispatchEntry (next : List Nat → Bool → SSState → Except String JsVal × SSState) :
    SSEntryB → List Nat → Bool → SSState → Except String JsVal × SSState
  | .evPass, req, _, s => (Except.ok JsVal.undef, (next req false s).2)
  | .evTag t, req, _, s => (Except.ok JsVal.undef, (next (req ++ [t]) false s).2)
  | .evTwice, req, _, s =>
    (Except.ok JsVal.undef, (next req false (next req false s).2).2)
  | .evShort, _, _, s => (Except.ok JsVal.undef, s)
  | .nbPass, req, cb, s =>
    match next req false s with
    | (Except.error e, s1) => (Except.error e, s1)
    | (Except.ok v, s1) =>
      match callCb cb v s1 with
      | (Except.error e, s2) => (Except.error e, s2)
      | (Except.ok _, s2) => (Except.ok JsVal.undef, s2)

/-- Model of the `next` closure of the promise-variant handle:

```
index++;
if (index < dedupedInterceptorFns.length) {
  const interceptor = dedupedInterceptorFns[index];
  if (!('eventInterceptor' in interceptor)) {
    const response = await interceptor(req, next); onEvent(response);
  } else {
    return interceptor.eventInterceptor(req, next, onEvent);
  }
} else {
  return this.backend.handle(req, onEvent);
}
```

The `fuel` argument bounds the recursion depth of the embedding only; the
entry behaviours above call their continuation at most twice and the cursor
only grows, so the fuel supplied by `ssRun` is never exhausted. -/
def ssNext (fns : List SEntry) : Nat → List Nat → Bool → SSState →
    Except String JsVal × SSState
  | 0, _, _, s => (Except.error "fuel exhausted", s)
  | fuel + 1, req, cb, s =>
    let s1 := {s with index := s.index + 1}
    if s1.index < (fns.length : Int) then
      match fns.get? s1.index.toNat with
      | none => (Except.error "unreachable", s1)
      | some e =>
        dispatchEntry (ssNext fns fuel) e.b req cb
          {s1 with trace := s1.trace ++ [STr.dispatch s1.index e req cb]}
    else
      ssBackendCall req cb s1

/-- Model of the promise-variant `HttpInterceptorHandler.handle`: builds the
deduplicated entry list from the two registry sources, starts the cursor at
`-1`, and awaits `next(request, (event) => onEvent(event))` — the original
caller callback is provided only at this outermost call. -/
def ssRun (fns rootFns : List SEntry) (req : List Nat) :
    Except String JsVal × SSState :=
  let deduped := dedupedInterceptorFns fns rootFns
  ssNext deduped (2 * deduped.length + 4) req true
    {index := -1, trace := [], delivered := [], taskOps := []}

/-! ### The promise returned by `Http.request`

```
return new Promise((resolve) => {
  this.backend.handle(req, (event) => {
    resolve(event);
  });
});
```

The executor wires the backend callback to `resolve` and wires nothing to
`reject`; the promise returned by `backend.handle` is discarded. -/

/-- What the backend does during a request, in order: deliver an event to the
callback it was given, or reject its own (discarded) completion promise. -/
inductive PAct where
  | emit (v : JsVal) : PAct
  | reject : PAct
deriving DecidableEq, Repr

/-- Settlement state of the promise returned by `Http.request`. -/
inductive POutcome where
  | pending : POutcome
  | resolved (v : JsVal) : POutcome
  | rejectedP : POutcome
deriving DecidableEq, Repr

/-- Promise settlement is sticky: `resolve` settles a pending promise and is a
no-op afterwards. -/
def resolveOnce : POutcome → JsVal → POutcome
  | .pending, v => .resolved v
  | st, _ => st

/-- The settlement of the promise returned by `Http.request` after the backend
performed the given actions: each delivered event calls `resolve`; a backend
rejection touches nothing, because the executor registers no rejection path. -/
def httpRequestOutcome (acts : List PAct) : POutcome :=
  acts.foldl
    (fun st a =>
      match a with
      | PAct.emit v => resolveOnce st v
      | PAct.reject => st)
    POutcome.pending

/-- The first event the backend delivers to its callback, if any. -/
def firstEmit : List PAct → Option JsVal
  | [] => none
  | PAct.emit v :: _ => some v
  | PAct.reject :: rest => firstEmit rest

/-! ### Helper lemmas -/

theorem takeUntilResponse_no_response (evs : List Ev)
    (h : ∀ e ∈ evs, isResponse e = false) : takeUntilResponse evs = evs := by
  induction evs with
  | nil => rfl
  | cons e es ih =>
    rw [takeUntilResponse, h e (List.mem_cons_self e es)]
    simp only [Bool.false_eq_true, if_false]
    rw [ih fun x hx => h x (List.mem_cons_of_mem e hx)]

theorem takeUntilResponse_firstResponse (evs rest : List Ev) (tr body : List Nat)
    (h : ∀ e ∈ evs, isResponse e = false) :
    takeUntilResponse (evs ++ Ev.response tr body :: rest)
      = evs ++ [Ev.response tr body] := by
  induction evs with
  | nil => simp [takeUntilResponse, isResponse]
  | cons e es ih =>
    rw [List.cons_append, takeUntilResponse, h e (List.mem_cons_self e es)]
    simp only [Bool.false_eq_true, if_false, List.cons_append]
    rw [ih fun x hx => h x (List.mem_cons_of_mem e hx)]

theorem callCb_taskOps (cb : Bool) (v : JsVal) (s : SSState) :
    ((callCb cb v s).2).taskOps = s.taskOps := by
  cases cb <;> simp [callCb]

theorem callCb_trace (cb : Bool) (v : JsVal) (s : SSState) :
    ((callCb cb v s).2).trace = s.trace := by
  cases cb <;> simp [callCb]

theorem dispatchEntry_taskOps
    (next : List Nat → Bool → SSState → Except String JsVal × SSState)
    (hnext : ∀ r c s, ((next r c s).2).taskOps = s.taskOps)
    (b : SSEntryB) (req : List Nat) (cb : Bool) (s : SSState) :
    ((dispatchEntry next b req cb s).2).taskOps = s.taskOps := by
  cases b with
  | evPass => simpa [dispatchEntry] using hnext req false s
  | evTag t => simpa [dispatchEntry] using hnext (req ++ [t]) false s
  | evTwice =>
    simp only [dispatchEntry]
    rw [hnext, hnext]
  | evShort => rfl
  | nbPass =>
    simp only [dispatchEntry]
    split
    · rename_i e s1 h1
      have := hnext req false s
      rw [h1] at this
      exact this
    · rename_i v s1 h1
      have e1 : s1.taskOps = s.taskOps := by
        have := hnext req false s
        rw [h1] at this
        exact this
      split
      · rename_i e s2 h2
        have e2 : s2.taskOps = s1.taskOps := by
          have := callCb_taskOps cb v s1
          rw [h2] at this
          exact this
        exact e2.trans e1
      · rename_i u s2 h2
        have e2 : s2.taskOps = s1.taskOps := by
          have := callCb_taskOps cb v s1
          rw [h2] at this
          exact this
        exact e2.trans e1

theorem ssNext_taskOps (fns : List SEntry) (fuel : Nat) :
    ∀ (req : List Nat) (cb : Bool) (s : SSState),
      ((ssNext fns fuel req cb s).2).taskOps = s.taskOps := by
  induction fuel with
  | zero => intro req cb s; rfl
  | succ n ih =>
    intro req cb s
    simp only [ssNext]
    split
    · split
      · rfl
      · exact dispatchEntry_taskOps _ ih _ _ _ _
    · cases cb <;> simp [ssBackendCall, callCb]

theorem dispatchEntry_trace_mono
    (next : List Nat → Bool → SSState → Except String JsVal × SSState)
    (hnext : ∀ r c s, ∃ t, ((next r c s).2).trace = s.trace ++ t)
    (b : SSEntryB) (req : List Nat) (cb : Bool) (s : SSState) :
    ∃ t, ((dispatchEntry next b req cb s).2).trace = s.trace ++ t := by
  cases b with
  | evPass => simpa [dispatchEntry] using hnext req false s
  | evTag t => simpa [dispatchEntry] using hnext (req ++ [t]) false s
  | evTwice =>
    simp only [dispatchEntry]
    obtain ⟨t1, h1⟩ := hnext req false s
    obtain ⟨t2, h2⟩ := hnext req false (next req false s).2
    exact ⟨t1 ++ t2, by rw [h2, h1, List.append_assoc]⟩
  | evShort => exact ⟨[], by simp [dispatchEntry]⟩
  | nbPass =>
    simp only [dispatchEntry]
    split
    · rename_i e s1 h1
      obtain ⟨t, ht⟩ := hnext req false s
      rw [h1] at ht
      exact ⟨t, ht⟩
    · rename_i v s1 h1
      obtain ⟨t1, ht1⟩ : ∃ t, s1.trace = s.trace ++ t := by
        obtain ⟨t, ht⟩ := hnext req false s
        rw [h1] at ht
        exact ⟨t, ht⟩
      split
      · rename_i e s2 h2
        have e2 : s2.trace = s1.trace := by
          have := callCb_trace cb v s1
          rw [h2] at this
          exact this
        exact ⟨t1, e2.trans ht1⟩
      · rename_i u s2 h2
        have e2 : s2.trace = s1.trace := by
          have := callCb_trace cb v s1
          rw [h2] at this
          exact this
        exact ⟨t1, e2.trans ht1⟩

theorem ssNext_trace_mono (fns : List SEntry) (fuel : Nat) :
    ∀ (req : List Nat) (cb : Bool) (s : SSState),
      ∃ t, ((ssNext fns fuel req cb s).2).trace = s.trace ++ t := by
  induction fuel with
  | zero => intro req cb s; exact ⟨[], by simp [ssNext]⟩
  | succ n ih =>
    intro req cb s
    simp only [ssNext]
    split
    · split
      · exact ⟨[], by simp⟩
      · rename_i e _
        obtain ⟨t, ht⟩ := dispatchEntry_trace_mono _ ih e.b req cb _
        refine ⟨STr.dispatch (s.index + 1) e req cb :: t, ?_⟩
        rw [ht]
        simp
    · exact ⟨[STr.backendCall req cb], by cases cb <;> simp [ssBackendCall, callCb]⟩

theorem httpRequestOutcome_resolved_absorbs (l : List PAct) (v : JsVal) :
    l.foldl
      (fun st a =>
        match a with
        | PAct.emit w => resolveOnce st w
        | PAct.reject => st)
      (POutcome.resolved v) = POutcome.resolved v := by
  induction l with
  | nil => rfl
  | cons x xs ih => cases x <;> simpa [resolveOnce] using ih

theorem httpRequestOutcome_eq_firstEmit (acts : List PAct) :
    httpRequestOutcome acts
      = (match firstEmit acts with
         | some v => POutcome.resolved v
         | none => POutcome.pending) := by
  induction acts with
  | nil => rfl
  | cons x xs ih =>
    cases x with
    | emit v =>
      simp only [httpRequestOutcome, List.foldl_cons, firstEmit, resolveOnce]
      exact httpRequestOutcome_resolved_absorbs xs v
    | reject => simpa [httpRequestOutcome, firstEmit] using ih

/-! ### The claims -/

/-- C1: for a chain built from entries `[a, b, c]` that all call their
continuation unconditionally, the terminal handler receives a request that
passed through `a`, then `b`, then `c` in that order (each tag is appended in
that order and the wrappers run left to right), and the response passes back
through `c`, then `b`, then `a` (the response trace collects the tags in
reverse order); the `reduceRight` fold is right-to-left, so entry 0 is the
outermost wrapper. -/
theorem claim_C1_chain_order (a b c : Nat) (req : List Nat) :
    (buildChain [⟨1, .nextB (.tag a)⟩, ⟨2, .nextB (.tag b)⟩, ⟨3, .nextB (.tag c)⟩]
        req rxBackend []
      = ([Ev.response [c, b, a] (req ++ [a, b, c])],
         [RxTr.run ⟨1, .nextB (.tag a)⟩ req,
          RxTr.run ⟨2, .nextB (.tag b)⟩ (req ++ [a]),
          RxTr.run ⟨3, .nextB (.tag c)⟩ (req ++ [a, b]),
          RxTr.backend (req ++ [a, b, c])]))
    ∧ ∀ (e : REntry) (rest : List REntry),
        buildChain (e :: rest) = chainedInterceptorFn (buildChain rest) e := by
  constructor
  · simp [buildChain, chainedInterceptorFn, runNextB, interceptorChainEndFn,
      rxBackend, addTag, List.append_assoc]
  · intro e rest
    rfl

/-- C4: the entry list merged from the module-local and root-level sources by
`dedupedInterceptorFns` contains each distinct entry exactly once (count one
for members, zero otherwise), is a subsequence of the concatenated sources
(order preserved), and orders entries by their first registration position. -/
theorem claim_C4_dedup {α : Type} [DecidableEq α] (fns rootFns : List α) :
    (∀ e : α, (dedupedInterceptorFns fns rootFns).count e
        = if e ∈ fns ++ rootFns then 1 else 0)
    ∧ (dedupedInterceptorFns fns rootFns).Sublist (fns ++ rootFns)
    ∧ ∀ x y : α, x ∈ fns ++ rootFns → y ∈ fns ++ rootFns →
        ((dedupedInterceptorFns fns rootFns).indexOf x
            ≤ (dedupedInterceptorFns fns rootFns).indexOf y ↔
          (fns ++ rootFns).indexOf x ≤ (fns ++ rootFns).indexOf y) :=
  ⟨fun e => jsSetDedup_count (fns ++ rootFns) e,
   jsSetDedup_sublist (fns ++ rootFns),
   fun x y hx hy => jsSetDedup_indexOf (fns ++ rootFns) x y hx hy⟩

/-- Witness for C4 at a concrete input: the entry `2` registered by both
sources is kept exactly once, and relative order follows first registration. -/
theorem claim_C4_dedup_witness :
    (dedupedInterceptorFns [1, 2] [2, 3]).count 2 = 1
    ∧ ((dedupedInterceptorFns [1, 2] [2, 3]).indexOf 1
          ≤ (dedupedInterceptorFns [1, 2] [2, 3]).indexOf 3 ↔
        ([1, 2] ++ [2, 3]).indexOf 1 ≤ ([1, 2] ++ [2, 3]).indexOf 3) := by
  refine ⟨?_, (claim_C4_dedup [1, 2] [2, 3]).2.2 1 3 (by decide) (by decide)⟩
  have h := (claim_C4_dedup [1, 2] [2, 3]).1 2
  simpa using h

/-- C7: in the chain `[a, b, c]` where `b` never invokes its continuation,
neither `c` nor the backend is invoked (the effect log stops at `b`), the
caller still receives exactly the events `b` chose to produce, and in the
promise variant the run likewise stops after dispatching `b` and terminates
without an error. -/
theorem claim_C7_short_circuit (ia ib ic k : Nat) (evs : List Ev) (req : List Nat) :
    (buildChain [⟨ia, .nextB .pass⟩, ⟨ib, .nextB (.short evs)⟩, ⟨ic, .nextB (.tag k)⟩]
        req rxBackend []
      = (evs, [RxTr.run ⟨ia, .nextB .pass⟩ req, RxTr.run ⟨ib, .nextB (.short evs)⟩ req]))
    ∧ ssRun [⟨1, .evPass⟩, ⟨2, .evShort⟩, ⟨3, .evTag 5⟩] [] req
      = (Except.ok JsVal.undef,
         {index := 1,
          trace := [STr.dispatch 0 ⟨1, .evPass⟩ req true,
                    STr.dispatch 1 ⟨2, .evShort⟩ req false],
          delivered := [], taskOps := []}) := by
  constructor
  · simp [buildChain, chainedInterceptorFn, runNextB, interceptorChainEndFn]
  · rfl

/-- C8: a single callback-based entry that emits `Sent` and forwards the
events of its continuation yields exactly `[Sent, Response]` for a successful
transport call; more generally every emitted event up to the first response is
forwarded, and the first response event closes the stream (later emissions are
dropped). -/
theorem claim_C8_event_interceptor :
    (∀ (i : Nat) (req : List Nat),
      buildChain [⟨i, .eventB .sentFwd⟩] req rxBackend []
        = ([Ev.sent, Ev.response [] req],
           [RxTr.run ⟨i, .eventB .sentFwd⟩ req, RxTr.backend req]))
    ∧ (∀ (i : Nat) (evs : List Ev) (req : List Nat) (g : Log),
        (∀ e ∈ evs, isResponse e = false) →
        buildChain [⟨i, .eventB (.emitList evs)⟩] req rxBackend g
          = (evs, g ++ [RxTr.run ⟨i, .eventB (.emitList evs)⟩ req]))
    ∧ (∀ (i : Nat) (evs rest : List Ev) (tr body req : List Nat),
        (∀ e ∈ evs, isResponse e = false) →
        buildChain [⟨i, .eventB (.emitList (evs ++ Ev.response tr body :: rest))⟩]
            req rxBackend []
          = (evs ++ [Ev.response tr body],
             [RxTr.run ⟨i, .eventB (.emitList (evs ++ Ev.response tr body :: rest))⟩ req])) := by
  refine ⟨fun i req => ?_, fun i evs req g h => ?_, fun i evs rest tr body req h => ?_⟩
  · simp [buildChain, chainedInterceptorFn, emitsOf, interceptorChainEndFn, rxBackend,
      takeUntilResponse, isResponse]
  · simp [buildChain, chainedInterceptorFn, emitsOf, interceptorChainEndFn,
      takeUntilResponse_no_response evs h]
  · simp [buildChain, chainedInterceptorFn, emitsOf, interceptorChainEndFn,
      takeUntilResponse_firstResponse evs rest tr body h]

/-- Witness for C8 at concrete inputs: a response-free emission list is
forwarded unchanged, and emissions after the first response are dropped. -/
theorem claim_C8_event_interceptor_witness :
    buildChain [⟨1, .eventB (.emitList [Ev.sent, Ev.user 4])⟩] [] rxBackend []
      = ([Ev.sent, Ev.user 4], [RxTr.run ⟨1, .eventB (.emitList [Ev.sent, Ev.user 4])⟩ []])
    ∧ buildChain [⟨1, .eventB (.emitList ([Ev.sent] ++ Ev.response [] [] :: [Ev.user 7]))⟩]
        [] rxBackend []
      = ([Ev.sent] ++ [Ev.response [] []],
         [RxTr.run ⟨1, .eventB (.emitList ([Ev.sent] ++ Ev.response [] [] :: [Ev.user 7]))⟩ []]) := by
  constructor
  · have h := claim_C8_event_interceptor.2.1 1 [Ev.sent, Ev.user 4] [] [] (by decide)
    simpa using h
  · exact claim_C8_event_interceptor.2.2 1 [Ev.sent] [Ev.user 7] [] [] [] (by decide)

/-- C2 (amended): the stream variant builds the chain at the first `handle`
call from the entry lists current at that moment, stores it in the dispatcher,
and a second call with different (mutated) registry lists still runs exactly
the chain built from the first call's lists; the promise variant keeps no
cache and rebuilds the deduplicated list on every call, so each call reflects
the registry lists current at that call. -/
theorem claim_C2_chain_caching (fns1 root1 fns2 root2 : List REntry) (be : RxHandlerFn)
    (req1 req2 : List Nat) :
    (((RxDispatcher.mk none).handle fns1 root1 be req1).1
        = RxDispatcher.mk (some (buildChain (dedupedInterceptorFns fns1 root1))))
    ∧ ((((RxDispatcher.mk none).handle fns1 root1 be req1).1.handle fns2 root2 be req2).2
        = fun g => buildChain (dedupedInterceptorFns fns1 root1) req2 be g)
    ∧ ((((RxDispatcher.mk none).handle fns1 root1 be req1).1.handle fns2 root2 be req2).1
        = RxDispatcher.mk (some (buildChain (dedupedInterceptorFns fns1 root1))))
    ∧ (∀ req : List Nat,
        (ssRun [⟨1, .evTag 7⟩] [] req).2.trace
          = [STr.dispatch 0 ⟨1, .evTag 7⟩ req true, STr.backendCall (req ++ [7]) false]
        ∧ (ssRun [] [] req).2.trace = [STr.backendCall req true]) :=
  ⟨rfl, rfl, rfl, fun _ => ⟨rfl, rfl⟩⟩

/-- Counterexample to C2 as stated: on the promise variant, a dispatcher whose
first `handle` call ran under the registry `[evTag 7]` and whose second call
runs after the registry was mutated to `[]` does not reuse the first chain:
the second call's backend request carries no tag, unlike any run of the chain
built from the first call's entries. -/
theorem claim_C2_counterexample :
    (ssRun [] [] []).2.trace = [STr.backendCall [] true]
    ∧ ¬ (ssRun [] [] []).2.trace = (ssRun [⟨1, .evTag 7⟩] [] []).2.trace := by
  decide

/-- C3 (amended): in the stream variant, when the stability flag is enabled a
handle call performs exactly one `add` before dispatch and exactly one
matching `remove` when the stream terminates, for every terminal outcome
(complete, error, unsubscribe), and performs no registry operation when the
flag is off; the promise variant performs no pending-task operation at all. -/
theorem claim_C3_pending_tasks (stability : Bool) (oc : Outcome) (pt : PTState) :
    ((runStream (rxHandleLifecycle stability pt).1 oc (rxHandleLifecycle stability pt).2).ops
      = pt.ops ++ (if stability then [TaskOp.added pt.nextId, TaskOp.removed pt.nextId] else []))
    ∧ ∀ (fns rootFns : List SEntry) (req : List Nat),
        (ssRun fns rootFns req).2.taskOps = [] := by
  constructor
  · cases stability <;> cases oc <;>
      simp [rxHandleLifecycle, runStream, PTState.addTask, PTState.removeTask]
  · intro fns rootFns req
    exact ssNext_taskOps _ _ _ _ _

/-- Counterexample to C3 as stated: a promise-variant `handle` call performs
zero pending-task acquisitions, not exactly one. -/
theorem claim_C3_counterexample :
    (ssRun [⟨1, .evPass⟩] [] []).2.taskOps = []
    ∧ ¬ ((ssRun [⟨1, .evPass⟩] [] []).2.taskOps.filter
          (fun op => match op with | TaskOp.added _ => true | _ => false)).length = 1 := by
  decide

/-- Number of dispatches of the entry with the given identity in a trace. -/
def entryDispatchCount (n : Nat) (tr : List STr) : Nat :=
  (tr.filter fun t =>
    match t with
    | STr.dispatch _ e _ _ => e.id == n
    | _ => false).length

/-- C5 (amended): in the stream variant an interceptor may invoke its
continuation any number of times and every invocation dispatches the same
downstream suffix of the chain (here: the tagging entry and then the backend,
twice, with identical requests); in the promise variant the continuation
shares the one advancing cursor of the call, so a second invocation dispatches
from wherever the cursor points — here it skips the second entry and reaches
the backend directly with the untagged request. -/
theorem claim_C5_reinvocation (req : List Nat) (i j t : Nat) :
    (buildChain [⟨i, .nextB .retry⟩, ⟨j, .nextB (.tag t)⟩] req rxBackend []
      = ([Ev.response [t] (req ++ [t]), Ev.response [t] (req ++ [t])],
         [RxTr.run ⟨i, .nextB .retry⟩ req,
          RxTr.run ⟨j, .nextB (.tag t)⟩ req, RxTr.backend (req ++ [t]),
          RxTr.run ⟨j, .nextB (.tag t)⟩ req, RxTr.backend (req ++ [t])]))
    ∧ ssRun [⟨1, .evTwice⟩, ⟨2, .evTag 5⟩] [] req
      = (Except.ok JsVal.undef,
         {index := 3,
          trace := [STr.dispatch 0 ⟨1, .evTwice⟩ req true,
                    STr.dispatch 1 ⟨2, .evTag 5⟩ req false,
                    STr.backendCall (req ++ [5]) false,
                    STr.backendCall req false],
          delivered := [], taskOps := []}) := by
  constructor
  · simp [buildChain, chainedInterceptorFn, runNextB, interceptorChainEndFn,
      rxBackend, addTag]
  · rfl

/-- Counterexample to C5 as stated: in the promise variant, entry 0 invokes
its continuation twice, but the entry at stage 1 is dispatched only once (not
once per invocation), and the second invocation reaches the backend directly
with the untagged request. -/
theorem claim_C5_counterexample :
    entryDispatchCount 2 (ssRun [⟨1, .evTwice⟩, ⟨2, .evTag 5⟩] [] []).2.trace = 1
    ∧ ¬ entryDispatchCount 2 (ssRun [⟨1, .evTwice⟩, ⟨2, .evTag 5⟩] [] []).2.trace = 2
    ∧ (ssRun [⟨1, .evTwice⟩, ⟨2, .evTag 5⟩] [] []).2.trace
        = [STr.dispatch 0 ⟨1, .evTwice⟩ [] true,
           STr.dispatch 1 ⟨2, .evTag 5⟩ [] false,
           STr.backendCall [5] false,
           STr.backendCall [] false] := by
  decide

/-- C6: the promise-variant `handle` is a strictly sequential fold over the
deduplicated entry list: the cursor starts at `-1`; every step first
increments it; while the incremented cursor is below the entry count the entry
at the cursor is dispatched (the trace gains exactly that dispatch record
first); once it is not, the backend is invoked with the current request — it
delivers its response through the provided callback, or rejects with a
`TypeError` when the callback is undefined; a three-entry pass-through chain
therefore dispatches stages `0, 1, 2` and then the backend, ending with the
cursor at the entry count. -/
theorem claim_C6_sequential_cursor :
    (∀ (fns rootFns : List SEntry) (req : List Nat),
      ssRun fns rootFns req
        = ssNext (dedupedInterceptorFns fns rootFns)
            (2 * (dedupedInterceptorFns fns rootFns).length + 4) req true
            {index := -1, trace := [], delivered := [], taskOps := []})
    ∧ (∀ (fns : List SEntry) (fuel : Nat) (req : List Nat) (cb : Bool) (s : SSState)
        (e : SEntry),
        s.index + 1 < (fns.length : Int) →
        fns.get? (s.index + 1).toNat = some e →
        ((ssNext fns (fuel + 1) req cb s).2).trace.take (s.trace.length + 1)
          = s.trace ++ [STr.dispatch (s.index + 1) e req cb])
    ∧ (∀ (fns : List SEntry) (fuel : Nat) (req : List Nat) (cb : Bool) (s : SSState),
        ¬ s.index + 1 < (fns.length : Int) →
        ssNext fns (fuel + 1) req cb s
          = (if cb then
              (Except.ok JsVal.undef,
               {index := s.index + 1,
                trace := s.trace ++ [STr.backendCall req cb],
                delivered := s.delivered ++ [JsVal.resp req],
                taskOps := s.taskOps})
             else
              (Except.error "TypeError: onEvent is not a function",
               {index := s.index + 1,
                trace := s.trace ++ [STr.backendCall req cb],
                delivered := s.delivered,
                taskOps := s.taskOps})))
    ∧ (∀ req : List Nat,
        ssRun [⟨1, .evPass⟩, ⟨2, .evPass⟩, ⟨3, .evPass⟩] [] req
          = (Except.ok JsVal.undef,
             {index := 3,
              trace := [STr.dispatch 0 ⟨1, .evPass⟩ req true,
                        STr.dispatch 1 ⟨2, .evPass⟩ req false,
                        STr.dispatch 2 ⟨3, .evPass⟩ req false,
                        STr.backendCall req false],
              delivered := [], taskOps := []})) := by
  refine ⟨fun fns rootFns req => rfl, ?_, ?_, fun req => rfl⟩
  · intro fns fuel req cb s e h1 h2
    simp only [ssNext]
    rw [if_pos h1, h2]
    obtain ⟨t, ht⟩ :=
      dispatchEntry_trace_mono (ssNext fns fuel) (ssNext_trace_mono fns fuel) e.b req cb
        {index := s.index + 1, trace := s.trace ++ [STr.dispatch (s.index + 1) e req cb],
         delivered := s.delivered, taskOps := s.taskOps}
    rw [ht]
    have hlen : s.trace.length + 1
        = (s.trace ++ [STr.dispatch (s.index + 1) e req cb]).length := by simp
    rw [hlen]
    exact List.take_left _ _
  · intro fns fuel req cb s h
    simp only [ssNext]
    rw [if_neg h]
    cases cb <;> simp [ssBackendCall, callCb]

/-- Witness for C6 at concrete inputs: with the cursor at `-1` and one entry,
the step dispatches stage 0 first; with no entries, the step invokes the
backend with the current request. -/
theorem claim_C6_sequential_cursor_witness :
    ((ssNext [⟨1, .evShort⟩] 3 [] true
        {index := -1, trace := [], delivered := [], taskOps := []}).2).trace.take 1
      = [STr.dispatch 0 ⟨1, .evShort⟩ [] true]
    ∧ ssNext ([] : List SEntry) 1 [] true
        {index := -1, trace := [], delivered := [], taskOps := []}
      = (Except.ok JsVal.undef,
         {index := 0, trace := [STr.backendCall [] true],
          delivered := [JsVal.resp []], taskOps := []}) := by
  constructor
  · have h := claim_C6_sequential_cursor.2.1 [⟨1, .evShort⟩] 2 [] true
      {index := -1, trace := [], delivered := [], taskOps := []} ⟨1, .evShort⟩
      (by decide) (by decide)
    simpa using h
  · have h := claim_C6_sequential_cursor.2.2.1 ([] : List SEntry) 0 [] true
      {index := -1, trace := [], delivered := [], taskOps := []} (by decide)
    simpa using h

/-- C9 (amended): in the promise variant, interceptors receive the
two-parameter `next` closure typed as the one-argument `HttpHandlerFn` and
invoke it with the request only, so every stage reached through such a
delegation is dispatched with an undefined `onEvent` — in particular the
backend at the end of the chain receives no callback (`onEv = false` in its
trace record).  The promise an interceptor awaits from the continuation never
carries the downstream response: it resolves to `undefined` when the delegated
stages leave the undefined callback untouched (second run, where a next-based
entry then forwards `undefined` to its own callback), and it rejects with a
`TypeError` when a delegated stage invokes the undefined callback, as the
backend always does (third run), leaving the caller with no events. -/
theorem claim_C9_undefined_onEvent (req : List Nat) :
    (ssRun [⟨1, .evPass⟩, ⟨2, .evPass⟩] [] req
      = (Except.ok JsVal.undef,
         {index := 2,
          trace := [STr.dispatch 0 ⟨1, .evPass⟩ req true,
                    STr.dispatch 1 ⟨2, .evPass⟩ req false,
                    STr.backendCall req false],
          delivered := [], taskOps := []}))
    ∧ (ssRun [⟨1, .nbPass⟩, ⟨2, .evShort⟩] [] req
      = (Except.ok JsVal.undef,
         {index := 1,
          trace := [STr.dispatch 0 ⟨1, .nbPass⟩ req true,
                    STr.dispatch 1 ⟨2, .evShort⟩ req false],
          delivered := [JsVal.undef], taskOps := []}))
    ∧ (ssRun [⟨1, .nbPass⟩] [] req
      = (Except.error "TypeError: onEvent is not a function",
         {index := 1,
          trace := [STr.dispatch 0 ⟨1, .nbPass⟩ req true, STr.backendCall req false],
          delivered := [], taskOps := []})) :=
  ⟨rfl, rfl, rfl⟩

/-- Counterexample to C9 as stated: for a single next-based pass-through
entry, the promise the interceptor awaits from its continuation does not
resolve to `undefined` — the backend invokes its undefined `onEvent`, so the
continuation, and with it the whole handle call, rejects with a `TypeError`
and nothing is delivered to the caller. -/
theorem claim_C9_counterexample :
    (ssRun [⟨1, SSEntryB.nbPass⟩] [] []).1
        = Except.error "TypeError: onEvent is not a function"
    ∧ ¬ (ssRun [⟨1, SSEntryB.nbPass⟩] [] []).1 = Except.ok JsVal.undef
    ∧ (ssRun [⟨1, SSEntryB.nbPass⟩] [] []).2.delivered = [] := by
  refine ⟨rfl, ?_, rfl⟩
  intro h
  rw [show (ssRun [⟨1, SSEntryB.nbPass⟩] [] []).1
      = Except.error "TypeError: onEvent is not a function" from rfl] at h
  exact Except.noConfusion h

/-- C10: the promise returned by `Http.request` settles to the first event the
backend delivers to its callback (and stays pending if none is delivered),
never rejects, and discards every event after the first. -/
theorem claim_C10_request_promise (acts : List PAct) :
    (httpRequestOutcome acts
      = (match firstEmit acts with
         | some v => POutcome.resolved v
         | none => POutcome.pending))
    ∧ httpRequestOutcome acts ≠ POutcome.rejectedP := by
  refine ⟨httpRequestOutcome_eq_firstEmit acts, ?_⟩
  rw [httpRequestOutcome_eq_firstEmit acts]
  cases firstEmit acts <;> simp

end InterceptorSpec
